import Mathlib

/- Verification development for MonteCarloMultiGPU.cpp (sycl_migrated).

   The file embeds the host-side core of the program: problem-size and
   grid-size scaling, the per-device plan builder, the call/event order of
   the two execution strategies, and the result aggregation with its final
   pass/fail judgment.  Machine integers in the source are small and
   non-negative on every modelled path, so they are embedded as Nat; the
   floating-point accumulators are embedded as exact rationals; C division
   and modulo, which are undefined for a zero divisor, are embedded as
   Option-valued operations.  Device queries (compute-unit counts) are
   external runtime services and enter the definitions as explicit
   parameters. -/

namespace MonteCarloMultiGPU

/-- Per-option GPU result (TOptionValue of MonteCarlo_common.h, used at
lines 268 and 301-302 of MonteCarloMultiGPU.cpp): expected call value and
confidence half-width. -/
structure TOptionValue where
  Expected : ℚ
  Confidence : ℚ
deriving DecidableEq

/-- Per-device execution plan (fields written at lines 308-327): device
index, number of options, offset of the plan's range into the shared
arrays (the pointer arithmetic `optionData + gpuBase`), path count and
grid size. -/
structure TOptionPlan where
  device : Nat
  optionCount : Nat
  base : Nat
  pathN : Nat
  gridSize : Nat
deriving DecidableEq

/-- Loop body of adjustProblemSize (lines 73-75): a device with at most 32
compute units clamps the running option count to at most half its
compute-unit count; `(a < b ? a : b)` is `min`. -/
def clampSmall (cudaCores : Nat → Nat) (nOptions i : Nat) : Nat :=
  if cudaCores i ≤ 32 then min nOptions (cudaCores i / 2) else nOptions

/-- adjustProblemSize (lines 62-79).  The max_compute_units query inside
the loop is an external runtime service, passed in as the function
`cudaCores` from loop iteration to the queried compute-unit count. -/
def adjustProblemSize (cudaCores : Nat → Nat) (GPU_N default_nOptions : Nat) : Nat :=
  (List.range GPU_N).foldl (clampSmall cudaCores) default_nOptions

/-- adjustGridSize (lines 81-89): the compute-unit count queried from the
device the runtime selects is passed in as `maxComputeUnits`; the result
is the default grid size capped at 40 times that count. -/
def adjustGridSize (maxComputeUnits defaultGridSize : Nat) : Nat :=
  let maxGridSize := maxComputeUnits * 40
  if defaultGridSize > maxGridSize then maxGridSize else defaultGridSize

/-- C integer division: defined only for a nonzero divisor (division by
zero is undefined behavior, modelled as `none`). -/
def cDiv (a b : Nat) : Option Nat :=
  if b = 0 then none else some (a / b)

/-- C modulo: defined only for a nonzero divisor (modulo by zero is
undefined behavior, modelled as `none`). -/
def cMod (a b : Nat) : Option Nat :=
  if b = 0 then none else some (a % b)

/-- The remainder loop (lines 313-315): `optionSolver[i].optionCount++`
for every `i < OPT_N % GPU_N`, i.e. the first `r` counts are incremented
by one. -/
def bumpFirst : Nat → List Nat → List Nat
  | 0, l => l
  | _ + 1, [] => []
  | r + 1, c :: cs => (c + 1) :: bumpFirst r cs

/-- Net effect of the two count loops (lines 308-315) when `GPU_N ≥ 1`:
every device starts at `OPT_N / GPU_N` options and the first
`OPT_N % GPU_N` devices, in index order, get one extra option. -/
def optionCounts (GPU_N OPT_N : Nat) : List Nat :=
  bumpFirst (OPT_N % GPU_N) (List.replicate GPU_N (OPT_N / GPU_N))

/-- The two count loops (lines 308-315) with C division semantics.  The
body of the first loop performs `OPT_N / GPU_N` once per executed
iteration; the second loop evaluates `OPT_N % GPU_N` in its loop
condition even when zero iterations run, so with `GPU_N = 0` the program
reaches a modulo by zero (undefined behavior) without any prior
no-devices check. -/
def buildCounts (GPU_N OPT_N : Nat) : Option (List Nat) := do
  let base ← (List.range GPU_N).mapM (fun _ => cDiv OPT_N GPU_N)
  let r ← cMod OPT_N GPU_N
  pure (bumpFirst r base)

/-- The range-assignment loop (lines 317-328): device index, running
`gpuBase` offset accumulating prior counts, path count, and grid size
computed by adjustGridSize from the plan's option count. -/
def buildPlansAux (cap PATH_N : Nat) : Nat → Nat → List Nat → List TOptionPlan
  | _, _, [] => []
  | i, gpuBase, c :: cs =>
    { device := i, optionCount := c, base := gpuBase, pathN := PATH_N,
      gridSize := adjustGridSize cap c } :: buildPlansAux cap PATH_N (i + 1) (gpuBase + c) cs

/-- Plan construction as performed by main (lines 308-328), for a run
with `GPU_N` devices, `OPT_N` options, path count `PATH_N`, and queried
compute-unit count `cap`. -/
def buildPlans (cap PATH_N GPU_N OPT_N : Nat) : List TOptionPlan :=
  buildPlansAux cap PATH_N 0 0 (optionCounts GPU_N OPT_N)

/-- Array index `k` lies in plan `p`'s contiguous range. -/
def inPlan (p : TOptionPlan) (k : Nat) : Prop :=
  p.base ≤ k ∧ k < p.base + p.optionCount

instance (p : TOptionPlan) (k : Nat) : Decidable (inPlan p k) := by
  unfold inPlan; infer_instance

theorem bumpFirst_sum : ∀ (l : List Nat) (r : Nat),
    (bumpFirst r l).sum = l.sum + min r l.length
  | [], r => by cases r <;> simp [bumpFirst]
  | c :: cs, 0 => by simp [bumpFirst]
  | c :: cs, r + 1 => by
      simp only [bumpFirst, List.sum_cons, bumpFirst_sum cs r, List.length_cons]
      omega

theorem bumpFirst_length : ∀ (l : List Nat) (r : Nat),
    (bumpFirst r l).length = l.length
  | [], r => by cases r <;> simp [bumpFirst]
  | c :: cs, 0 => by simp [bumpFirst]
  | c :: cs, r + 1 => by
      simp [bumpFirst, bumpFirst_length cs r]

theorem optionCounts_sum (GPU_N OPT_N : Nat) (h : 1 ≤ GPU_N) :
    (optionCounts GPU_N OPT_N).sum = OPT_N := by
  have hm : OPT_N % GPU_N < GPU_N := Nat.mod_lt _ h
  rw [optionCounts, bumpFirst_sum, List.sum_replicate, List.length_replicate,
    smul_eq_mul, Nat.min_eq_left (Nat.le_of_lt hm), Nat.div_add_mod]

theorem optionCounts_length (GPU_N OPT_N : Nat) :
    (optionCounts GPU_N OPT_N).length = GPU_N := by
  rw [optionCounts, bumpFirst_length, List.length_replicate]

theorem buildPlansAux_counts (cap PATH_N : Nat) : ∀ (cs : List Nat) (i b : Nat),
    (buildPlansAux cap PATH_N i b cs).map TOptionPlan.optionCount = cs
  | [], _, _ => rfl
  | c :: cs, i, b => by
      simp [buildPlansAux, buildPlansAux_counts cap PATH_N cs (i + 1) (b + c)]

theorem buildPlansAux_length (cap PATH_N : Nat) : ∀ (cs : List Nat) (i b : Nat),
    (buildPlansAux cap PATH_N i b cs).length = cs.length
  | [], _, _ => rfl
  | c :: cs, i, b => by
      simp [buildPlansAux, buildPlansAux_length cap PATH_N cs (i + 1) (b + c)]

theorem buildPlansAux_cover (cap PATH_N : Nat) : ∀ (cs : List Nat) (i b k : Nat),
    (∃ p ∈ buildPlansAux cap PATH_N i b cs, inPlan p k) ↔ b ≤ k ∧ k < b + cs.sum
  | [], i, b, k => by
      constructor
      · rintro ⟨p, hp, -⟩
        exact absurd hp (List.not_mem_nil p)
      · intro hk
        simp only [List.sum_nil] at hk
        exact absurd hk (by omega)
  | c :: cs, i, b, k => by
      simp only [buildPlansAux]
      have IH := buildPlansAux_cover cap PATH_N cs (i + 1) (b + c) k
      constructor
      · rintro ⟨p, hp, hin⟩
        rcases List.mem_cons.mp hp with heq | htail
        · subst heq
          have hin2 : b ≤ k ∧ k < b + c := hin
          simp only [List.sum_cons]
          omega
        · have h2 := IH.mp ⟨p, htail, hin⟩
          simp only [List.sum_cons]
          omega
      · intro hk
        simp only [List.sum_cons] at hk
        by_cases hc : k < b + c
        · exact ⟨_, List.mem_cons_self _ _, ⟨hk.1, hc⟩⟩
        · obtain ⟨p, hp, hin⟩ := IH.mpr ⟨by omega, by omega⟩
          exact ⟨p, List.mem_cons_of_mem _ hp, hin⟩

theorem buildPlansAux_base_le (cap PATH_N : Nat) : ∀ (cs : List Nat) (i b : Nat),
    ∀ p ∈ buildPlansAux cap PATH_N i b cs, b ≤ p.base
  | [], _, _ => by simp [buildPlansAux]
  | c :: cs, i, b => by
      simp only [buildPlansAux, List.mem_cons, forall_eq_or_imp]
      refine ⟨Nat.le_refl b, fun p hp => ?_⟩
      have := buildPlansAux_base_le cap PATH_N cs (i + 1) (b + c) p hp
      omega

theorem buildPlansAux_pairwise (cap PATH_N : Nat) : ∀ (cs : List Nat) (i b : Nat),
    (buildPlansAux cap PATH_N i b cs).Pairwise
      (fun p q => ∀ k, ¬(inPlan p k ∧ inPlan q k))
  | [], _, _ => List.Pairwise.nil
  | c :: cs, i, b => by
      simp only [buildPlansAux, List.pairwise_cons]
      refine ⟨fun q hq k hk => ?_, buildPlansAux_pairwise cap PATH_N cs (i + 1) (b + c)⟩
      have hbase := buildPlansAux_base_le cap PATH_N cs (i + 1) (b + c) q hq
      simp only [inPlan] at hk
      omega

/-- Partition-completeness property of the plans of one run: one plan per
device, the option counts sum to `OPT_N`, plan ranges are pairwise
disjoint, and the union of the ranges is exactly `[0, OPT_N)`. -/
def PartitionComplete (cap PATH_N GPU_N OPT_N : Nat) : Prop :=
  (buildPlans cap PATH_N GPU_N OPT_N).length = GPU_N
  ∧ ((buildPlans cap PATH_N GPU_N OPT_N).map TOptionPlan.optionCount).sum = OPT_N
  ∧ (buildPlans cap PATH_N GPU_N OPT_N).Pairwise
      (fun p q => ∀ k, ¬(inPlan p k ∧ inPlan q k))
  ∧ ∀ k, (∃ p ∈ buildPlans cap PATH_N GPU_N OPT_N, inPlan p k) ↔ k < OPT_N

/-- Claim C1: for every `deviceCount ≥ 1` and `totalOptions ≥ 0`, the
plans built at lines 308-328 have pairwise disjoint contiguous ranges
whose union is exactly `[0, totalOptions)`, and the per-plan option
counts sum to the total option count `OPT_N`. -/
theorem plan_partition_complete (cap PATH_N GPU_N OPT_N : Nat) (h : 1 ≤ GPU_N) :
    PartitionComplete cap PATH_N GPU_N OPT_N := by
  refine ⟨?_, ?_, ?_, fun k => ?_⟩
  · rw [buildPlans, buildPlansAux_length, optionCounts_length]
  · rw [buildPlans, buildPlansAux_counts, optionCounts_sum GPU_N OPT_N h]
  · exact buildPlansAux_pairwise cap PATH_N _ 0 0
  · rw [buildPlans, buildPlansAux_cover cap PATH_N _ 0 0 k,
      optionCounts_sum GPU_N OPT_N h]
    omega

/-- Witness for C1: a concrete run with 3 devices and 10 options. -/
theorem plan_partition_complete_witness :
    1 ≤ 3 ∧ PartitionComplete 20 100 3 10 :=
  ⟨by decide, plan_partition_complete 20 100 3 10 (by decide)⟩

/-- Claim C9: for `totalOptions = 17` and `deviceCount = 4` the plan
builder assigns per-device option counts `[5, 4, 4, 4]`: base allocation
`17 / 4 = 4` per device, and the first `17 % 4 = 1` device in index order
receives one extra option. -/
theorem remainder_determinism :
    (∀ cap PATH_N, (buildPlans cap PATH_N 4 17).map TOptionPlan.optionCount = [5, 4, 4, 4])
    ∧ optionCounts 4 17 = [5, 4, 4, 4] ∧ 17 / 4 = 4 ∧ 17 % 4 = 1 := by
  refine ⟨fun cap PATH_N => ?_, by decide, by decide, by decide⟩
  rw [buildPlans, buildPlansAux_counts]
  decide

/-- Claim C7: adjustGridSize returns the minimum of the default grid size
and 40 times the queried compute-unit count: it never exceeds the ceiling
and equals the default whenever the default is at or below the ceiling. -/
theorem grid_size_ceiling (maxComputeUnits defaultGridSize : Nat) :
    adjustGridSize maxComputeUnits defaultGridSize
        = min defaultGridSize (maxComputeUnits * 40)
    ∧ adjustGridSize maxComputeUnits defaultGridSize ≤ maxComputeUnits * 40
    ∧ (defaultGridSize ≤ maxComputeUnits * 40 →
        adjustGridSize maxComputeUnits defaultGridSize = defaultGridSize) := by
  simp only [adjustGridSize]
  split <;> omega

/-- Witness for C7 at compute-unit count 3 and default grid size 50. -/
theorem grid_size_ceiling_witness :
    adjustGridSize 3 50 = min 50 (3 * 40)
    ∧ adjustGridSize 3 50 ≤ 3 * 40
    ∧ (50 ≤ 3 * 40 → adjustGridSize 3 50 = 50) :=
  grid_size_ceiling 3 50

theorem clampSmall_le (cudaCores : Nat → Nat) (a i : Nat) :
    clampSmall cudaCores a i ≤ a := by
  unfold clampSmall
  split <;> omega

theorem clampSmall_foldl_le (cudaCores : Nat → Nat) : ∀ (l : List Nat) (a : Nat),
    l.foldl (clampSmall cudaCores) a ≤ a
  | [], a => Nat.le_refl a
  | i :: is, a =>
      Nat.le_trans (clampSmall_foldl_le cudaCores is (clampSmall cudaCores a i))
        (clampSmall_le cudaCores a i)

theorem clampSmall_foldl_le_small (cudaCores : Nat → Nat) : ∀ (l : List Nat) (a i : Nat),
    i ∈ l → cudaCores i ≤ 32 →
    l.foldl (clampSmall cudaCores) a ≤ cudaCores i / 2
  | [], a, i, hmem, _ => absurd hmem (List.not_mem_nil i)
  | j :: js, a, i, hmem, hsmall => by
      rcases List.mem_cons.mp hmem with heq | htail
      · subst heq
        refine Nat.le_trans (clampSmall_foldl_le cudaCores js _) ?_
        unfold clampSmall
        simp only [hsmall, if_pos]
        exact Nat.min_le_right _ _
      · exact clampSmall_foldl_le_small cudaCores js _ i htail hsmall

theorem clampSmall_foldl_lb (cudaCores : Nat → Nat) : ∀ (l : List Nat) (a b : Nat),
    b ≤ a → (∀ i ∈ l, cudaCores i ≤ 32 → b ≤ cudaCores i / 2) →
    b ≤ l.foldl (clampSmall cudaCores) a
  | [], a, b, hb, _ => hb
  | j :: js, a, b, hb, hsm => by
      refine clampSmall_foldl_lb cudaCores js _ b ?_ fun i hi h => hsm i (List.mem_cons_of_mem j hi) h
      unfold clampSmall
      split
      · exact le_min hb (hsm j (List.mem_cons_self j js) (by assumption))
      · exact hb

/-- Clamping property of adjustProblemSize: the result never exceeds the
default, the running value is non-increasing as the scan extends by one
device, every small device (≤ 32 compute units) bounds the result by half
its compute-unit count, and the result is the greatest value satisfying
those bounds — so the most restrictive small device determines it. -/
def ProblemSizeClamped (cudaCores : Nat → Nat) (GPU_N default_nOptions : Nat) : Prop :=
  adjustProblemSize cudaCores GPU_N default_nOptions ≤ default_nOptions
  ∧ (∀ m, adjustProblemSize cudaCores (m + 1) default_nOptions
      ≤ adjustProblemSize cudaCores m default_nOptions)
  ∧ (∀ i, i < GPU_N → cudaCores i ≤ 32 →
      adjustProblemSize cudaCores GPU_N default_nOptions ≤ cudaCores i / 2)
  ∧ (∀ b, b ≤ default_nOptions →
      (∀ i, i < GPU_N → cudaCores i ≤ 32 → b ≤ cudaCores i / 2) →
      b ≤ adjustProblemSize cudaCores GPU_N default_nOptions)

/-- Claim C8: adjustProblemSize scans devices in index order, clamps the
running option count to at most half the compute-unit count of every
small device, is monotonically non-increasing across the scan, never
exceeds the default, and the most restrictive small device determines the
result. -/
theorem problem_size_clamped (cudaCores : Nat → Nat) (GPU_N default_nOptions : Nat) :
    ProblemSizeClamped cudaCores GPU_N default_nOptions := by
  refine ⟨clampSmall_foldl_le cudaCores _ _, fun m => ?_, fun i hi hsmall => ?_,
    fun b hb hsm => ?_⟩
  · rw [adjustProblemSize, List.range_succ, List.foldl_append]
    exact clampSmall_le cudaCores _ m
  · exact clampSmall_foldl_le_small cudaCores _ _ i (List.mem_range.mpr hi) hsmall
  · exact clampSmall_foldl_lb cudaCores _ _ b hb
      fun i hi h => hsm i (List.mem_range.mp hi) h

/-- Witness for C8: three devices with 16, 64 and 10 compute units and a
default of 100 options. -/
theorem problem_size_clamped_witness :
    ProblemSizeClamped (fun i => [16, 64, 10].getD i 0) 3 100 :=
  problem_size_clamped (fun i => [16, 64, 10].getD i 0) 3 100

/-- Claim C2 (code behavior at the failing input): with `deviceCount = 0`
the count loops reach the modulo by zero in the remainder loop's
condition — undefined behavior, modelled as `none` — instead of
signalling a distinct no-devices error; the source contains no
`GPU_N == 0` check at all.  `OPT_N = 0` is the value weak scaling
produces for 0 devices, `OPT_N = 8192` the strong-scaling value. -/
theorem no_devices_unchecked :
    buildCounts 0 0 = none ∧ buildCounts 0 8192 = none
    ∧ ∀ OPT_N, buildCounts 0 OPT_N = none := by
  refine ⟨rfl, rfl, fun OPT_N => ?_⟩
  simp [buildCounts, cMod]

/-- The three comparison accumulators of main (declared at line 281). -/
structure Accum where
  sumDelta : ℚ
  sumRef : ℚ
  sumReserve : ℚ
deriving DecidableEq

/-- The reserve-skip threshold of the comparison loops (lines 367 and
410).  The source's `1e-6` is the double nearest 10⁻⁶; the exact rational
10⁻⁶ is used here, and every concrete evaluation below has delta exactly
0, where the two thresholds agree. -/
def eps : ℚ := 1 / 1000000

/-- One iteration of the comparison loop (lines 360-374 and 403-417):
`delta = |callValueBS - Expected|` is added to sumDelta, `|callValueBS|`
to sumRef, and `Confidence / delta` to sumReserve exactly when
`delta > 1e-6`. -/
def aggStep (acc : Accum) (callValueBS : ℚ) (v : TOptionValue) : Accum :=
  let delta := |callValueBS - v.Expected|
  { sumDelta := acc.sumDelta + delta
    sumRef := acc.sumRef + |callValueBS|
    sumReserve :=
      if delta > eps then acc.sumReserve + v.Confidence / delta else acc.sumReserve }

/-- One aggregation block of main (lines 356-376, repeated at 399-419):
the three accumulators are assigned 0 — overwriting whatever the incoming
state held, which is why the parameter is unused — then the comparison
loop runs over the (reference price, GPU result) pairs, and finally
`sumReserve /= OPT_N`. -/
def aggregateBlock (_incoming : Accum) (data : List (ℚ × TOptionValue)) : Accum :=
  let looped := data.foldl (fun acc p => aggStep acc p.1 p.2)
    { sumDelta := 0, sumRef := 0, sumReserve := 0 }
  { looped with sumReserve := looped.sumReserve / (data.length : ℚ) }

/-- A single aggregation pass starting from the freshly declared
accumulators. -/
def aggregatePass (data : List (ℚ × TOptionValue)) : Accum :=
  aggregateBlock { sumDelta := 0, sumRef := 0, sumReserve := 0 } data

/-- The reported L1 norm `sumDelta / sumRef` (line 456). -/
def l1Norm (a : Accum) : ℚ :=
  a.sumDelta / a.sumRef

/-- The final pass/fail line (line 458). -/
def testMessage (a : Accum) : String :=
  if a.sumReserve > 1 then "Test passed\n" else "Test failed!\n"

/-- The process exit status (line 459): EXIT_SUCCESS (0) when the average
reserve exceeds 1, EXIT_FAILURE (1) otherwise. -/
def exitCode (a : Accum) : Nat :=
  if a.sumReserve > 1 then 0 else 1

/-- Exit-status property: the exit code and the pass/fail message are
total functions of the average reserve alone — 0 exactly when it exceeds
1, 1 exactly otherwise — and any two accumulator states with the same
average reserve produce the same code and message. -/
def ExitByReserve (a : Accum) : Prop :=
  (exitCode a = 0 ↔ 1 < a.sumReserve)
  ∧ (exitCode a = 1 ↔ a.sumReserve ≤ 1)
  ∧ (testMessage a = "Test failed!\n" ↔ a.sumReserve ≤ 1)
  ∧ ∀ b : Accum, b.sumReserve = a.sumReserve →
      exitCode b = exitCode a ∧ testMessage b = testMessage a

/-- Claim C3: the process exit status is determined by the average
reserve judgment only — exit code 0 exactly when `averageReserve > 1.0`,
exit code 1 otherwise — and a validation failure is surfaced as the
"Test failed" status computed by a total function, never thrown. -/
theorem exit_status_by_reserve (a : Accum) : ExitByReserve a := by
  refine ⟨?_, ?_, ?_, fun b hb => ?_⟩
  · unfold exitCode
    split <;> simp_all
  · unfold exitCode
    split <;> simp_all
  · unfold testMessage
    split <;> simp_all
  · unfold exitCode testMessage
    rw [hb]
    exact ⟨rfl, rfl⟩

/-- Witness for C3: an accumulator state with average reserve 5. -/
theorem exit_status_by_reserve_witness :
    ExitByReserve { sumDelta := 1, sumRef := 40, sumReserve := 5 } :=
  exit_status_by_reserve { sumDelta := 1, sumRef := 40, sumReserve := 5 }

/-- The reserve contribution of one option: confidence divided by the
absolute pricing error. -/
def reserveTerm (p : ℚ × TOptionValue) : ℚ :=
  p.2.Confidence / |p.1 - p.2.Expected|

theorem sumReserve_foldl : ∀ (data : List (ℚ × TOptionValue)) (acc : Accum),
    (data.foldl (fun a p => aggStep a p.1 p.2) acc).sumReserve
      = acc.sumReserve
        + ((data.filter fun p => decide (eps < |p.1 - p.2.Expected|)).map reserveTerm).sum
  | [], acc => by simp
  | p :: ps, acc => by
      rw [List.foldl_cons, sumReserve_foldl ps]
      by_cases h : eps < |p.1 - p.2.Expected|
      · simp [List.filter_cons, h, aggStep, reserveTerm]
        ring
      · simp [List.filter_cons, h, aggStep]

theorem aggStep_exact (acc : Accum) (q conf : ℚ) :
    aggStep acc q { Expected := q, Confidence := conf }
      = { sumDelta := acc.sumDelta, sumRef := acc.sumRef + |q|,
          sumReserve := acc.sumReserve } := by
  unfold aggStep
  norm_num [eps]

/-- The end-to-end scenario of the spec: 2 devices, 8 options; device 0
owns the first 4 options with expected value 4 and confidence 1/2 against
reference price 4, device 1 owns the last 4 with expected value 6 against
reference price 6: every delta is exactly 0. -/
def exactMatchData : List (ℚ × TOptionValue) :=
  List.replicate 4 (4, { Expected := 4, Confidence := 1 / 2 })
    ++ List.replicate 4 (6, { Expected := 6, Confidence := 1 / 2 })

/-- Outcome of the exact-match scenario: zero total error, zero average
reserve, and the run judged failed with exit code 1. -/
def ExactMatchFails : Prop :=
  (aggregatePass exactMatchData).sumDelta = 0
  ∧ (aggregatePass exactMatchData).sumReserve = 0
  ∧ exitCode (aggregatePass exactMatchData) = 1
  ∧ testMessage (aggregatePass exactMatchData) = "Test failed!\n"

theorem exactMatch_eval :
    aggregatePass exactMatchData = { sumDelta := 0, sumRef := 40, sumReserve := 0 } := by
  show aggregateBlock _ _ = _
  unfold aggregateBlock exactMatchData
  simp only [List.replicate, List.cons_append, List.nil_append, List.foldl_cons,
    List.foldl_nil, aggStep_exact]
  norm_num

/-- Claim C4: the reserve contribution `Confidence / delta` is
accumulated exactly for the options with `delta > 1e-6` — the average
reserve is the sum of those contributions divided by the option count —
and in the exact-match scenario every reserve term is skipped, so
`sumDelta = 0`, `sumReserve = 0`, `averageReserve = 0`, and the run is
judged failed. -/
theorem reserve_condition_and_exact_match :
    (∀ data : List (ℚ × TOptionValue),
      (aggregatePass data).sumReserve
        = ((data.filter fun p => decide (eps < |p.1 - p.2.Expected|)).map reserveTerm).sum
            / (data.length : ℚ))
    ∧ ExactMatchFails := by
  constructor
  · intro data
    show (data.foldl (fun a p => aggStep a p.1 p.2)
        { sumDelta := 0, sumRef := 0, sumReserve := 0 }).sumReserve / (data.length : ℚ) = _
    rw [sumReserve_foldl]
    norm_num
  · rw [ExactMatchFails, exactMatch_eval]
    refine ⟨rfl, rfl, by norm_num [exitCode], by norm_num [testMessage]⟩

/-- The qatest dual pass (lines 330-420): the threaded pass's aggregation
block runs first over the accumulator variables, then the streamed pass's
aggregation block runs over the same variables. -/
def qatestFinalAccum (s : Accum)
    (dataThreaded dataStreamed : List (ℚ × TOptionValue)) : Accum :=
  aggregateBlock (aggregateBlock s dataThreaded) dataStreamed

/-- Claim C10: in the dual-pass qatest mode the accumulators are reset to
zero before the second (streamed) aggregation, so the final accumulator
state — hence the reported L1 norm, the average reserve, and the exit
status — is determined solely by the second pass, whatever the first pass
aggregated. -/
theorem qatest_second_pass_only (s t : Accum)
    (d₁ d₂ dStreamed : List (ℚ × TOptionValue)) :
    qatestFinalAccum s d₁ dStreamed = qatestFinalAccum t d₂ dStreamed
    ∧ qatestFinalAccum s d₁ dStreamed = aggregatePass dStreamed
    ∧ exitCode (qatestFinalAccum s d₁ dStreamed) = exitCode (aggregatePass dStreamed)
    ∧ l1Norm (qatestFinalAccum s d₁ dStreamed) = l1Norm (aggregatePass dStreamed)
    ∧ testMessage (qatestFinalAccum s d₁ dStreamed) = testMessage (aggregatePass dStreamed) :=
  ⟨rfl, rfl, rfl, rfl, rfl⟩

/-- Driver entry points invoked per plan by solverThread and
multiSolver. -/
inductive DriverCall where
  | init
  | simulate
  | close
deriving DecidableEq

/-- Driver call sequence of solverThread (lines 106-128): init, then
simulate; `stream.wait_and_throw()` (line 118) rethrows any failure of
the simulation, in which case the exception propagates out of the thread
routine and `closeMonteCarloGPU` (line 123) never runs.  `simulateOk`
records whether the wait after the simulation succeeds. -/
def solverThreadCalls (simulateOk : Bool) : List DriverCall :=
  [DriverCall.init, DriverCall.simulate]
    ++ if simulateOk then [DriverCall.close] else []

/-- Counterexample to claim C6 as stated: when the simulation fails at
the synchronization point, teardown is never invoked — the call sequence
at the concrete input `simulateOk = false` contains no close call. -/
theorem teardown_skipped_on_failure :
    DriverCall.close ∉ solverThreadCalls false
    ∧ solverThreadCalls false = [DriverCall.init, DriverCall.simulate] := by
  decide

/-- Claim C6 as amended: on a successful run the driver invokes init,
simulate and teardown in that order, exactly once each per plan; but if
simulate reports a failure (rethrown by the wait), teardown is skipped
and the device resources are not released by the driver. -/
theorem driver_call_order :
    solverThreadCalls true = [DriverCall.init, DriverCall.simulate, DriverCall.close]
    ∧ (∀ ok, (solverThreadCalls ok).count DriverCall.init = 1
        ∧ (solverThreadCalls ok).count DriverCall.simulate = 1)
    ∧ (solverThreadCalls true).count DriverCall.close = 1
    ∧ solverThreadCalls false = [DriverCall.init, DriverCall.simulate] := by
  decide

/-- Events of the streamed strategy multiSolver (lines 130-170): per-plan
init issue, per-stream init wait (`streams[i].wait_and_throw()`),
simulation issue, completion-marker record
(`ext_oneapi_submit_barrier`), marker wait (`events[i].wait_and_throw()`)
and device teardown (`closeMonteCarloGPU`). -/
inductive MSEvent where
  | initIssue (i : Nat)
  | initWait (i : Nat)
  | simIssue (i : Nat)
  | markerRecord (i : Nat)
  | markerWait (i : Nat)
  | closeDev (i : Nat)
deriving DecidableEq

/-- The simulation-issue loop (lines 152-159): for each plan, in plan
order, MonteCarloGPU is submitted and a completion event is recorded
without waiting. -/
def simBlock (nPlans : Nat) : List MSEvent :=
  (List.range nPlans).flatMap fun i => [MSEvent.simIssue i, MSEvent.markerRecord i]

/-- Host-side event order of multiSolver (lines 144-169): issue init for
every plan in order, wait on every stream individually, issue all
simulations with recorded markers, wait on every recorded marker, then
teardown every device. -/
def multiSolverTrace (nPlans : Nat) : List MSEvent :=
  ((List.range nPlans).map MSEvent.initIssue)
    ++ (((List.range nPlans).map MSEvent.initWait)
    ++ ((simBlock nPlans)
    ++ (((List.range nPlans).map MSEvent.markerWait)
    ++ ((List.range nPlans).map MSEvent.closeDev))))

/-- Event x occurs at an index strictly before an occurrence of y in l. -/
def Before (x y : MSEvent) (l : List MSEvent) : Prop :=
  ∃ i j : Nat, i < j ∧ l[i]? = some x ∧ l[j]? = some y

theorem getElem?_append_lt {α : Type} (l₁ l₂ : List α) (i : Nat) (h : i < l₁.length) :
    (l₁ ++ l₂)[i]? = l₁[i]? := by
  rw [List.getElem?_append]
  simp [h]

theorem mapRange_getElem? (f : Nat → MSEvent) {n i : Nat} (h : i < n) :
    ((List.range n).map f)[i]? = some (f i) := by
  simp [List.getElem?_map, List.getElem?_range, h]

theorem simBlock_succ (n : Nat) :
    simBlock (n + 1) = simBlock n ++ [MSEvent.simIssue n, MSEvent.markerRecord n] := by
  rw [simBlock, List.range_succ, List.flatMap_append, simBlock]
  simp

theorem simBlock_length (n : Nat) : (simBlock n).length = 2 * n := by
  induction n with
  | zero => rfl
  | succ m ih =>
      rw [simBlock_succ, List.length_append, ih]
      simp
      omega

theorem simBlock_getElem? : ∀ (n i : Nat), i < n →
    (simBlock n)[2 * i]? = some (MSEvent.simIssue i)
    ∧ (simBlock n)[2 * i + 1]? = some (MSEvent.markerRecord i) := by
  intro n
  induction n with
  | zero => intro i h; exact absurd h (Nat.not_lt_zero i)
  | succ m ih =>
      intro i h
      rw [simBlock_succ]
      have hlen := simBlock_length m
      rcases Nat.lt_or_ge i m with hlt | hge
      · constructor
        · rw [getElem?_append_lt _ _ _ (by omega)]
          exact (ih i hlt).1
        · rw [getElem?_append_lt _ _ _ (by omega)]
          exact (ih i hlt).2
      · have heq : i = m := by omega
        subst heq
        constructor
        · rw [List.getElem?_append_right (by omega), hlen,
            show 2 * i - 2 * i = 0 from by omega]
          rfl
        · rw [List.getElem?_append_right (by omega), hlen,
            show 2 * i + 1 - 2 * i = 1 from by omega]
          rfl

theorem trace_getElem?_initIssue (n i : Nat) (h : i < n) :
    (multiSolverTrace n)[i]? = some (MSEvent.initIssue i) := by
  rw [multiSolverTrace, getElem?_append_lt _ _ _ (by simpa using h)]
  exact mapRange_getElem? _ h

theorem trace_getElem?_initWait (n i : Nat) (h : i < n) :
    (multiSolverTrace n)[n + i]? = some (MSEvent.initWait i) := by
  rw [multiSolverTrace,
    List.getElem?_append_right (by simp only [List.length_map, List.length_range]; omega)]
  simp only [List.length_map, List.length_range]
  rw [show n + i - n = i from by omega,
    getElem?_append_lt _ _ _ (by simp only [List.length_map, List.length_range]; omega)]
  exact mapRange_getElem? _ h

theorem trace_getElem?_simIssue (n i : Nat) (h : i < n) :
    (multiSolverTrace n)[2 * n + 2 * i]? = some (MSEvent.simIssue i) := by
  rw [multiSolverTrace,
    List.getElem?_append_right (by simp only [List.length_map, List.length_range]; omega)]
  simp only [List.length_map, List.length_range]
  rw [show 2 * n + 2 * i - n = n + 2 * i from by omega,
    List.getElem?_append_right (by simp only [List.length_map, List.length_range]; omega)]
  simp only [List.length_map, List.length_range]
  rw [show n + 2 * i - n = 2 * i from by omega,
    getElem?_append_lt _ _ _ (by simp only [simBlock_length]; omega)]
  exact (simBlock_getElem? n i h).1

theorem trace_getElem?_markerRecord (n i : Nat) (h : i < n) :
    (multiSolverTrace n)[2 * n + 2 * i + 1]? = some (MSEvent.markerRecord i) := by
  rw [multiSolverTrace,
    List.getElem?_append_right (by simp only [List.length_map, List.length_range]; omega)]
  simp only [List.length_map, List.length_range]
  rw [show 2 * n + 2 * i + 1 - n = n + (2 * i + 1) from by omega,
    List.getElem?_append_right (by simp only [List.length_map, List.length_range]; omega)]
  simp only [List.length_map, List.length_range]
  rw [show n + (2 * i + 1) - n = 2 * i + 1 from by omega,
    getElem?_append_lt _ _ _ (by simp only [simBlock_length]; omega)]
  exact (simBlock_getElem? n i h).2

theorem trace_getElem?_markerWait (n i : Nat) (h : i < n) :
    (multiSolverTrace n)[4 * n + i]? = some (MSEvent.markerWait i) := by
  rw [multiSolverTrace,
    List.getElem?_append_right (by simp only [List.length_map, List.length_range]; omega)]
  simp only [List.length_map, List.length_range]
  rw [show 4 * n + i - n = 3 * n + i from by omega,
    List.getElem?_append_right (by simp only [List.length_map, List.length_range]; omega)]
  simp only [List.length_map, List.length_range]
  rw [show 3 * n + i - n = 2 * n + i from by omega,
    List.getElem?_append_right (by simp only [simBlock_length]; omega)]
  rw [simBlock_length, show 2 * n + i - 2 * n = i from by omega,
    getElem?_append_lt _ _ _ (by simp only [List.length_map, List.length_range]; omega)]
  exact mapRange_getElem? _ h

theorem trace_getElem?_closeDev (n i : Nat) (h : i < n) :
    (multiSolverTrace n)[5 * n + i]? = some (MSEvent.closeDev i) := by
  rw [multiSolverTrace,
    List.getElem?_append_right (by simp only [List.length_map, List.length_range]; omega)]
  simp only [List.length_map, List.length_range]
  rw [show 5 * n + i - n = 4 * n + i from by omega,
    List.getElem?_append_right (by simp only [List.length_map, List.length_range]; omega)]
  simp only [List.length_map, List.length_range]
  rw [show 4 * n + i - n = 3 * n + i from by omega,
    List.getElem?_append_right (by simp only [simBlock_length]; omega)]
  rw [simBlock_length, show 3 * n + i - 2 * n = n + i from by omega,
    List.getElem?_append_right (by simp only [List.length_map, List.length_range]; omega)]
  simp only [List.length_map, List.length_range]
  rw [show n + i - n = i from by omega]
  exact mapRange_getElem? _ h

theorem count_mapRange_self (f : Nat → MSEvent) (hf : Function.Injective f)
    (n i : Nat) (h : i < n) : ((List.range n).map f).count (f i) = 1 := by
  rw [List.count_map_of_injective _ f hf]
  exact List.count_eq_one_of_mem (List.nodup_range n) (List.mem_range.mpr h)

theorem trace_count_initWait (n i : Nat) (h : i < n) :
    (multiSolverTrace n).count (MSEvent.initWait i) = 1 := by
  have hinj : Function.Injective MSEvent.initWait := fun a b hab => by
    injection hab
  rw [multiSolverTrace, List.count_append, List.count_append, List.count_append,
    List.count_append, count_mapRange_self MSEvent.initWait hinj n i h]
  have h1 : ((List.range n).map MSEvent.initIssue).count (MSEvent.initWait i) = 0 :=
    List.count_eq_zero.mpr (by simp)
  have h3 : (simBlock n).count (MSEvent.initWait i) = 0 :=
    List.count_eq_zero.mpr (by simp [simBlock, List.mem_flatMap])
  have h4 : ((List.range n).map MSEvent.markerWait).count (MSEvent.initWait i) = 0 :=
    List.count_eq_zero.mpr (by simp)
  have h5 : ((List.range n).map MSEvent.closeDev).count (MSEvent.initWait i) = 0 :=
    List.count_eq_zero.mpr (by simp)
  omega

theorem trace_count_markerWait (n i : Nat) (h : i < n) :
    (multiSolverTrace n).count (MSEvent.markerWait i) = 1 := by
  have hinj : Function.Injective MSEvent.markerWait := fun a b hab => by
    injection hab
  rw [multiSolverTrace, List.count_append, List.count_append, List.count_append,
    List.count_append, count_mapRange_self MSEvent.markerWait hinj n i h]
  have h1 : ((List.range n).map MSEvent.initIssue).count (MSEvent.markerWait i) = 0 :=
    List.count_eq_zero.mpr (by simp)
  have h2 : ((List.range n).map MSEvent.initWait).count (MSEvent.markerWait i) = 0 :=
    List.count_eq_zero.mpr (by simp)
  have h3 : (simBlock n).count (MSEvent.markerWait i) = 0 :=
    List.count_eq_zero.mpr (by simp [simBlock, List.mem_flatMap])
  have h5 : ((List.range n).map MSEvent.closeDev).count (MSEvent.markerWait i) = 0 :=
    List.count_eq_zero.mpr (by simp)
  omega

/-- Ordering property of the streamed strategy for plans i and j among n
plans: init is issued in plan order and each plan's init completion is
waited for by its own per-stream wait — occurring exactly once per plan —
before any simulation issue; every simulation issue is immediately
followed by its recorded marker, in plan order; every marker is waited on
after it is recorded, exactly once per plan, and before any teardown. -/
def StreamedOrdering (n i j : Nat) : Prop :=
  (i < j → Before (MSEvent.initIssue i) (MSEvent.initIssue j) (multiSolverTrace n))
  ∧ Before (MSEvent.initIssue i) (MSEvent.initWait i) (multiSolverTrace n)
  ∧ Before (MSEvent.initWait i) (MSEvent.simIssue j) (multiSolverTrace n)
  ∧ Before (MSEvent.simIssue i) (MSEvent.markerRecord i) (multiSolverTrace n)
  ∧ (i < j → Before (MSEvent.simIssue i) (MSEvent.simIssue j) (multiSolverTrace n))
  ∧ Before (MSEvent.markerRecord i) (MSEvent.markerWait i) (multiSolverTrace n)
  ∧ Before (MSEvent.markerWait i) (MSEvent.closeDev j) (multiSolverTrace n)
  ∧ (multiSolverTrace n).count (MSEvent.initWait i) = 1
  ∧ (multiSolverTrace n).count (MSEvent.markerWait i) = 1

/-- Claim C5: in the streamed strategy, init is issued for each device in
plan order and each device's init completion is waited for individually
(one wait per stream, not a single global barrier) before any simulation
work is issued; simulation is then issued asynchronously to every device
with a recorded completion marker, and every recorded marker is waited on
before any teardown — i.e. before results are trusted. -/
theorem streamed_ordering (n i j : Nat) (hi : i < n) (hj : j < n) :
    StreamedOrdering n i j := by
  refine ⟨fun hij => ⟨i, j, hij, trace_getElem?_initIssue n i hi,
      trace_getElem?_initIssue n j hj⟩,
    ⟨i, n + i, by omega, trace_getElem?_initIssue n i hi,
      trace_getElem?_initWait n i hi⟩,
    ⟨n + i, 2 * n + 2 * j, by omega, trace_getElem?_initWait n i hi,
      trace_getElem?_simIssue n j hj⟩,
    ⟨2 * n + 2 * i, 2 * n + 2 * i + 1, by omega, trace_getElem?_simIssue n i hi,
      trace_getElem?_markerRecord n i hi⟩,
    fun hij => ⟨2 * n + 2 * i, 2 * n + 2 * j, by omega,
      trace_getElem?_simIssue n i hi, trace_getElem?_simIssue n j hj⟩,
    ⟨2 * n + 2 * i + 1, 4 * n + i, by omega, trace_getElem?_markerRecord n i hi,
      trace_getElem?_markerWait n i hi⟩,
    ⟨4 * n + i, 5 * n + j, by omega, trace_getElem?_markerWait n i hi,
      trace_getElem?_closeDev n j hj⟩,
    trace_count_initWait n i hi,
    trace_count_markerWait n i hi⟩

/-- Witness for C5: two plans, devices 0 and 1. -/
theorem streamed_ordering_witness :
    0 < 2 ∧ 1 < 2 ∧ StreamedOrdering 2 0 1 :=
  ⟨by decide, by decide, streamed_ordering 2 0 1 (by decide) (by decide)⟩

end MonteCarloMultiGPU
